import Mathlib

/-!
Verification of the database reconciliation engine of the Molten repository
(`Tools/Scraping Tools/update_database.py`).

The Python module maintains a JSON "database" of glass products: it merges
freshly-scraped product rows into a persisted store, filters excluded URLs,
applies SKU overrides, removes same-URL duplicates, aborts on duplicate keys
with different URLs, marks missing products discontinued (never deleting),
assigns deterministic short stable IDs via a SHA-256-based scheme, and
exports the store to a public JSON shape.

This file is a shallow embedding of that module: Python dicts become
association lists (`dictLookup` / `dictInsert`, first-occurrence semantics),
the CSV row and the persisted product record become fixed-schema structures
over the scraper's `FIELDNAMES` schema, in-place mutation becomes explicit
state passing, and the fatal duplicate-conflict path (which returns
`(None, report)`) becomes an `Option` result.
-/

set_option maxHeartbeats 1000000
set_option maxRecDepth 100000

deriving instance DecidableEq for Except

namespace Molten

/-- A raw scraped product row: one line of the combined scraper's CSV, with
the 14 columns of `FIELDNAMES` in `combined_glass_scraper.py`. -/
structure Row where
  manufacturer : String
  code : String
  name : String
  start_date : String
  end_date : String
  manufacturer_description : String
  tags : String
  synonyms : String
  coe : String
  type : String
  manufacturer_url : String
  image_path : String
  image_url : String
  stock_type : String
deriving DecidableEq, Repr

/-- A persisted product record: the lifecycle bookkeeping fields written by
`_create_product_record` plus all CSV catalog fields.  `discontinued_date`
is `none` for Python `None`; `stable_id` is `none` when the key is absent
from the record dict. -/
structure Record where
  status : String
  added_date : String
  last_seen : String
  discontinued_date : Option String
  manufacturer : String
  code : String
  name : String
  start_date : String
  end_date : String
  manufacturer_description : String
  tags : String
  synonyms : String
  coe : String
  type : String
  manufacturer_url : String
  image_path : String
  image_url : String
  stock_type : String
  stable_id : Option String
deriving DecidableEq, Repr

/-- Lookup in an association list modelling a Python dict (first occurrence
of the key wins). -/
def dictLookup {α : Type} : List (String × α) → String → Option α
  | [], _ => none
  | (k', v) :: rest, k => if k' = k then some v else dictLookup rest k

/-- Assignment `d[k] = v` on a Python dict: replace the value at the first
occurrence of `k`, or append a new binding at the end. -/
def dictInsert {α : Type} : List (String × α) → String → α → List (String × α)
  | [], k, v => [(k, v)]
  | (k', v') :: rest, k, v =>
    if k' = k then (k, v) :: rest else (k', v') :: dictInsert rest k v

/-- The in-memory database state of `ProductDatabase`: the `products` dict
of the persisted JSON store plus the two side tables loaded at start. -/
structure DB where
  products : List (String × Record)
  excluded_urls : List String
  sku_overrides : List (String × String)
deriving DecidableEq, Repr

/-- `ProductDatabase.get_product_key`: serialize a product key as
`"MFR:CODE"`. -/
def get_product_key (manufacturer code : String) : String :=
  manufacturer ++ ":" ++ code

/-- Product key of a raw row. -/
def rowKey (r : Row) : String :=
  get_product_key r.manufacturer r.code

/-- `ProductDatabase.filter_excluded_urls`: drop every row whose
`manufacturer_url` is in the exclusion list; also count the drops. -/
def filter_excluded_urls (excluded : List String) : List Row → List Row × Nat
  | [] => ([], 0)
  | r :: rest =>
    let (l, n) := filter_excluded_urls excluded rest
    if r.manufacturer_url ∈ excluded then (l, n + 1) else (r :: l, n)

/-- `ProductDatabase.apply_sku_overrides`: replace the `code` of every row
whose `manufacturer_url` is a key of the override map. -/
def apply_sku_overrides (overrides : List (String × String)) : List Row → List Row × Nat
  | [] => ([], 0)
  | r :: rest =>
    let (l, n) := apply_sku_overrides overrides rest
    match dictLookup overrides r.manufacturer_url with
    | some sku => ({ r with code := sku } :: l, n + 1)
    | none => (r :: l, n)

/-- Loop of `ProductDatabase.deduplicate_same_url`, threading the
`seen_keys` dict (key to URL of the first-seen row for that key). -/
def dedupGo (seen_keys : List (String × String)) : List Row → List Row × Nat
  | [] => ([], 0)
  | r :: rest =>
    let key := rowKey r
    let url := r.manufacturer_url
    match dictLookup seen_keys key with
    | none =>
      let (l, n) := dedupGo (dictInsert seen_keys key url) rest
      (r :: l, n)
    | some firstUrl =>
      if firstUrl = url ∧ url ≠ "" then
        let (l, n) := dedupGo seen_keys rest
        (l, n + 1)
      else
        let (l, n) := dedupGo seen_keys rest
        (r :: l, n)

/-- `ProductDatabase.deduplicate_same_url`: remove later rows that repeat a
key with the identical (non-empty) URL of the first-seen row. -/
def deduplicate_same_url (rows : List Row) : List Row × Nat :=
  dedupGo [] rows

/-- `ProductDatabase.detect_duplicates`: true when some product key is
carried by at least two rows of the (preprocessed) batch. -/
def detect_duplicates (rows : List Row) : Bool :=
  let keys := rows.map rowKey
  keys.any (fun k => keys.count k > 1)

/-- `ProductDatabase._create_product_record`: build a fresh record from a
CSV row; `status = "available"`, both dates set to the creation day, no
`discontinued_date`, no `stable_id`. -/
def create_product_record (r : Row) (date_added : String) : Record :=
  { status := "available"
    added_date := date_added
    last_seen := date_added
    discontinued_date := none
    manufacturer := r.manufacturer
    code := r.code
    name := r.name
    start_date := r.start_date
    end_date := r.end_date
    manufacturer_description := r.manufacturer_description
    tags := r.tags
    synonyms := r.synonyms
    coe := r.coe
    type := r.type
    manufacturer_url := r.manufacturer_url
    image_path := r.image_path
    image_url := r.image_url
    stock_type := r.stock_type
    stable_id := none }

/-- True when no catalog field of the row differs from the stored record,
i.e. the `changed_fields` list computed by `update_from_scraped_data` is
empty (every CSV column is present in records of this schema). -/
def catalogEq (p : Record) (r : Row) : Bool :=
  p.manufacturer == r.manufacturer && p.code == r.code && p.name == r.name &&
  p.start_date == r.start_date && p.end_date == r.end_date &&
  p.manufacturer_description == r.manufacturer_description &&
  p.tags == r.tags && p.synonyms == r.synonyms && p.coe == r.coe &&
  p.type == r.type && p.manufacturer_url == r.manufacturer_url &&
  p.image_path == r.image_path && p.image_url == r.image_url &&
  p.stock_type == r.stock_type

/-- The bulk overwrite `existing[field] = row[field]` over every CSV column
performed in the changed-fields branch. -/
def setCatalog (p : Record) (r : Row) : Record :=
  { p with
    manufacturer := r.manufacturer
    code := r.code
    name := r.name
    start_date := r.start_date
    end_date := r.end_date
    manufacturer_description := r.manufacturer_description
    tags := r.tags
    synonyms := r.synonyms
    coe := r.coe
    type := r.type
    manufacturer_url := r.manufacturer_url
    image_path := r.image_path
    image_url := r.image_url
    stock_type := r.stock_type }

/-- The per-run change counters of `update_from_scraped_data`. -/
structure Stats where
  new : Nat
  updated : Nat
  discontinued : Nat
  unchanged : Nat
deriving DecidableEq, Repr

/-- One iteration of the new/updated loop of `update_from_scraped_data`:
create the record if the key is absent, otherwise overwrite changed fields,
refresh `last_seen` and reactivate a discontinued record. -/
def reconcileRow (ps : List (String × Record)) (r : Row) (today : String)
    (stats : Stats) : List (String × Record) × Stats :=
  let key := rowKey r
  match dictLookup ps key with
  | none =>
    (dictInsert ps key (create_product_record r today),
     { stats with new := stats.new + 1 })
  | some existing =>
    if catalogEq existing r then
      let ex1 := { existing with last_seen := today }
      if ex1.status = "discontinued" then
        (dictInsert ps key { ex1 with status := "available", discontinued_date := none },
         { stats with updated := stats.updated + 1 })
      else
        (dictInsert ps key ex1, { stats with unchanged := stats.unchanged + 1 })
    else
      let ex1 := { setCatalog existing r with last_seen := today }
      if ex1.status = "discontinued" then
        (dictInsert ps key { ex1 with status := "available", discontinued_date := none },
         { stats with updated := stats.updated + 1 })
      else
        (dictInsert ps key ex1, { stats with updated := stats.updated + 1 })

/-- The new/updated loop of `update_from_scraped_data` over the whole
preprocessed batch. -/
def processRows (ps : List (String × Record)) (today : String) (stats : Stats) :
    List Row → List (String × Record) × Stats
  | [] => (ps, stats)
  | r :: rest =>
    let (ps', stats') := reconcileRow ps r today stats
    processRows ps' today stats' rest

/-- The body of the discontinued sweep for one store entry: skip records of
manufacturers out of scope or bot-protected; otherwise, a still-available
record whose key is missing from the batch becomes discontinued today. -/
def sweepRecord (new_keys : List String) (today : String)
    (scraped_manufacturers : Option (List String)) (bot_protected : List String)
    (key : String) (product : Record) : Record × Nat :=
  let skip_scope : Bool :=
    match scraped_manufacturers with
    | some ms => decide (product.manufacturer ∉ ms)
    | none => false
  if skip_scope then (product, 0)
  else if product.manufacturer ∈ bot_protected then (product, 0)
  else if key ∉ new_keys ∧ product.status = "available" then
    ({ product with status := "discontinued", discontinued_date := some today }, 1)
  else (product, 0)

/-- The discontinued sweep of `update_from_scraped_data` over every entry
of the products dict, returning the updated dict and the number of records
newly marked discontinued. -/
def sweepGo (new_keys : List String) (today : String)
    (scraped_manufacturers : Option (List String)) (bot_protected : List String) :
    List (String × Record) → List (String × Record) × Nat
  | [] => ([], 0)
  | (k, p) :: rest =>
    let (p', c) := sweepRecord new_keys today scraped_manufacturers bot_protected k p
    let (rest', n) := sweepGo new_keys today scraped_manufacturers bot_protected rest
    ((k, p') :: rest', c + n)

/-- The preprocessing prefix of `update_from_scraped_data`: exclusion
filter, then SKU overrides, then same-URL dedup. -/
def preprocess (db : DB) (rows : List Row) : List Row :=
  let r1 := (filter_excluded_urls db.excluded_urls rows).1
  let r2 := (apply_sku_overrides db.sku_overrides r1).1
  (deduplicate_same_url r2).1

/-- `ProductDatabase.update_from_scraped_data` (in-memory part): preprocess
the batch, abort with `none` when `detect_duplicates` fires (the Python
code returns `(None, report)` without touching the store), otherwise run
the new/updated loop and the discontinued sweep and return the updated
state together with the stats counters. -/
def update_from_scraped_data (db : DB) (rows : List Row) (today : String)
    (scraped_manufacturers : Option (List String)) (bot_protected : List String) :
    Option (DB × Stats) :=
  let new_products := preprocess db rows
  if detect_duplicates new_products then none
  else
    let new_keys := new_products.map rowKey
    let (products1, stats1) :=
      processRows db.products today ⟨0, 0, 0, 0⟩ new_products
    let (products2, ndisc) :=
      sweepGo new_keys today scraped_manufacturers bot_protected products1
    some ({ db with products := products2 },
          { stats1 with discontinued := stats1.discontinued + ndisc })

/-! ## Stable-ID generation (`generate_stable_id`)

The Python code hashes `"manufacturer:code"` with `hashlib.sha256`, takes
the first 4 digest bytes as a big-endian integer, and emits 6 characters by
repeated division by `len(base62_chars)`.  SHA-256 is embedded below over
`Nat` bytes and 32-bit words (`% 2 ^ 32` where the algorithm wraps). -/

/-- UTF-8 encoding of one character, as `str.encode('utf-8')` produces. -/
def utf8EncodeChar (c : Char) : List Nat :=
  let n := c.toNat
  if n < 0x80 then [n]
  else if n < 0x800 then
    [0xC0 ||| (n >>> 6), 0x80 ||| (n &&& 0x3F)]
  else if n < 0x10000 then
    [0xE0 ||| (n >>> 12), 0x80 ||| ((n >>> 6) &&& 0x3F), 0x80 ||| (n &&& 0x3F)]
  else
    [0xF0 ||| (n >>> 18), 0x80 ||| ((n >>> 12) &&& 0x3F),
     0x80 ||| ((n >>> 6) &&& 0x3F), 0x80 ||| (n &&& 0x3F)]

/-- UTF-8 bytes of a string. -/
def strBytes (s : String) : List Nat :=
  (s.data.map utf8EncodeChar).flatten

/-- Big-endian bytes of `n`, `count` bytes wide. -/
def toBytesBE (count n : Nat) : List Nat :=
  (List.range count).map (fun i => (n >>> (8 * (count - 1 - i))) % 256)

/-- Big-endian integer value of a byte list (`int.from_bytes(_, 'big')`). -/
def bytesToNatBE (bytes : List Nat) : Nat :=
  bytes.foldl (fun acc b => acc * 256 + b) 0

/-- The 64 SHA-256 round constants (decimal). -/
def sha256_k : List Nat :=
  [1116352408, 1899447441, 3049323471, 3921009573, 961987163,
   1508970993, 2453635748, 2870763221, 3624381080, 310598401,
   607225278, 1426881987, 1925078388, 2162078206, 2614888103,
   3248222580, 3835390401, 4022224774, 264347078, 604807628,
   770255983, 1249150122, 1555081692, 1996064986, 2554220882,
   2821834349, 2952996808, 3210313671, 3336571891, 3584528711,
   113926993, 338241895, 666307205, 773529912, 1294757372,
   1396182291, 1695183700, 1986661051, 2177026350, 2456956037,
   2730485921, 2820302411, 3259730800, 3345764771, 3516065817,
   3600352804, 4094571909, 275423344, 430227734, 506948616,
   659060556, 883997877, 958139571, 1322822218, 1537002063,
   1747873779, 1955562222, 2024104815, 2227730452, 2361852424,
   2428436474, 2756734187, 3204031479, 3329325298]

/-- The SHA-256 initial hash state (decimal). -/
def sha256_h0 : List Nat :=
  [1779033703, 3144134277, 1013904242, 2773480762,
   1359893119, 2600822924, 528734635, 1541459225]

/-- Right rotation of a 32-bit word. -/
def rotr32 (n x : Nat) : Nat :=
  ((x >>> n) ||| (x <<< (32 - n))) % 2 ^ 32

/-- SHA-256 message padding: append `0x80`, zero bytes up to 56 mod 64,
then the bit length as 8 big-endian bytes. -/
def sha256Pad (msg : List Nat) : List Nat :=
  let len := msg.length
  let zeros := (119 - len % 64) % 64
  msg ++ [0x80] ++ List.replicate zeros 0 ++ toBytesBE 8 (len * 8)

/-- Pack bytes into big-endian 32-bit words. -/
def bytesToWords : List Nat → List Nat
  | b0 :: b1 :: b2 :: b3 :: rest =>
    ((b0 <<< 24) ||| (b1 <<< 16) ||| (b2 <<< 8) ||| b3) :: bytesToWords rest
  | _ => []

/-- Extend the 16 block words by `fuel` scheduled words (σ-mixing). -/
def sha256Schedule (w : List Nat) : Nat → List Nat
  | 0 => w
  | fuel + 1 =>
    let t := w.length
    let w15 := w.getD (t - 15) 0
    let w2 := w.getD (t - 2) 0
    let s0 := (rotr32 7 w15) ^^^ (rotr32 18 w15) ^^^ (w15 >>> 3)
    let s1 := (rotr32 17 w2) ^^^ (rotr32 19 w2) ^^^ (w2 >>> 10)
    let next := (w.getD (t - 16) 0 + s0 + w.getD (t - 7) 0 + s1) % 2 ^ 32
    sha256Schedule (w ++ [next]) fuel

/-- One SHA-256 compression round on the 8-word working state. -/
def sha256Round (st : List Nat) (k w : Nat) : List Nat :=
  let a := st.getD 0 0
  let b := st.getD 1 0
  let c := st.getD 2 0
  let d := st.getD 3 0
  let e := st.getD 4 0
  let f := st.getD 5 0
  let g := st.getD 6 0
  let hh := st.getD 7 0
  let s1 := (rotr32 6 e) ^^^ (rotr32 11 e) ^^^ (rotr32 25 e)
  let ch := (e &&& f) ^^^ ((0xFFFFFFFF ^^^ e) &&& g)
  let temp1 := (hh + s1 + ch + k + w) % 2 ^ 32
  let s0 := (rotr32 2 a) ^^^ (rotr32 13 a) ^^^ (rotr32 22 a)
  let maj := (a &&& b) ^^^ (a &&& c) ^^^ (b &&& c)
  let temp2 := (s0 + maj) % 2 ^ 32
  [(temp1 + temp2) % 2 ^ 32, a, b, c, (d + temp1) % 2 ^ 32, e, f, g]

/-- Compress one 64-byte block (given as 16 words) into the hash state. -/
def sha256Compress (hash : List Nat) (block : List Nat) : List Nat :=
  let w := sha256Schedule block 48
  let st := (List.zip sha256_k w).foldl (fun s kw => sha256Round s kw.1 kw.2) hash
  (List.zip hash st).map (fun p => (p.1 + p.2) % 2 ^ 32)

/-- Fold the padded message through the compression function, with a fuel
argument for structural recursion; each step consumes 64 bytes, so any
fuel of at least the byte count is enough. -/
def sha256BlocksGo (hash : List Nat) (bytes : List Nat) : Nat → List Nat
  | 0 => hash
  | fuel + 1 =>
    match bytes with
    | [] => hash
    | b :: rest =>
      sha256BlocksGo (sha256Compress hash (bytesToWords ((b :: rest).take 64)))
        ((b :: rest).drop 64) fuel

/-- Fold the padded message through the compression function. -/
def sha256Blocks (hash : List Nat) (bytes : List Nat) : List Nat :=
  sha256BlocksGo hash bytes bytes.length

/-- SHA-256 digest of a byte list, as 32 bytes. -/
def sha256 (msg : List Nat) : List Nat :=
  ((sha256Blocks sha256_h0 (sha256Pad msg)).map (toBytesBE 4)).flatten

/-- The ID alphabet of `generate_stable_id` (the name and the literal are
the source's; the string has 57 characters). -/
def base62_chars : String :=
  "0123456789ABCDEFGHJKLMNPQRSTUVWXYZabcdefghjkmnpqrstuvwxyz"

/-- The alphabet as a character list. -/
def base62List : List Char :=
  base62_chars.data

/-- The digit-emission loop of `generate_stable_id`: `count` times prepend
`base62_chars[num % len]` and divide `num` by `len`. -/
def buildId (num : Nat) : Nat → List Char
  | 0 => []
  | count + 1 =>
    buildId (num / base62List.length) count ++
      [base62List.getD (num % base62List.length) '0']

/-- The hash-derived candidate stable ID for `(manufacturer, code)`:
SHA-256 of `"manufacturer:code"`, first 4 bytes big-endian, 6 digits. -/
def candidateId (manufacturer code : String) : List Char :=
  let combined := manufacturer ++ ":" ++ code
  let hash_bytes := sha256 (strBytes combined)
  let num := bytesToNatBE (hash_bytes.take 4)
  buildId num 6

/-- The collision-resolution loop of `generate_stable_id`: while the ID is
taken, advance the last character by the (incremented) attempt counter,
wrapping through the alphabet; raise (`Except.error`) once the counter
exceeds the alphabet length. -/
def collisionLoopGo (existing_ids : List String) (stable_id : List Char)
    (collision_counter : Nat) : Nat → Except String (List Char)
  | 0 =>
    if String.mk stable_id ∈ existing_ids then
      Except.error "Unable to resolve collision"
    else
      Except.ok stable_id
  | fuel + 1 =>
    if String.mk stable_id ∈ existing_ids then
      let c := collision_counter + 1
      let last_char := stable_id.getLastD '0'
      let last_char_index := base62List.indexOf last_char
      let new_last_char :=
        base62List.getD ((last_char_index + c) % base62List.length) '0'
      let stable_id' := stable_id.dropLast ++ [new_last_char]
      if c > base62List.length then
        Except.error "Unable to resolve collision"
      else
        collisionLoopGo existing_ids stable_id' c fuel
    else
      Except.ok stable_id

/-- The collision loop entered with counter `c`; the counter reaches at
most `base62List.length + 1` before the error branch fires, so a fuel of
`base62List.length - c` makes the fuel-exhaustion branch dead code. -/
def collisionLoop (existing_ids : List String) (stable_id : List Char)
    (collision_counter : Nat) : Except String (List Char) :=
  collisionLoopGo existing_ids stable_id collision_counter
    (base62List.length - collision_counter)

/-- `generate_stable_id`: candidate from the hash, then the collision
loop; the Python `raise ValueError` branch is the `Except.error` case. -/
def generate_stable_id (manufacturer code : String) (existing_ids : List String) :
    Except String String :=
  (collisionLoop existing_ids (candidateId manufacturer code) 0).map String.mk

/-! ## `assign_stable_ids` -/

/-- The truthiness test `'stable_id' in product and product['stable_id']`:
the field is present and non-empty. -/
def hasStableId (p : Record) : Bool :=
  match p.stable_id with
  | some s => s != ""
  | none => false

/-- First pass of `assign_stable_ids`: collect every pre-existing stable
ID of the store. -/
def collectStableIds (ps : List (String × Record)) : List String :=
  ps.filterMap (fun kp => if hasStableId kp.2 then kp.2.stable_id else none)

/-- Lexicographic comparison of character lists by code point, the order
Python string comparison uses. -/
def charListLe : List Char → List Char → Bool
  | [], _ => true
  | _ :: _, [] => false
  | a :: as, b :: bs =>
    if a.toNat < b.toNat then true
    else if b.toNat < a.toNat then false
    else charListLe as bs

/-- Python string `<=`. -/
def strLe (a b : String) : Bool :=
  charListLe a.data b.data

/-- Stable insertion of a string into a sorted list (ascending). -/
def insertSorted (s : String) : List String → List String
  | [] => [s]
  | t :: rest => if strLe s t then s :: t :: rest else t :: insertSorted s rest

/-- Ascending sort of strings, modelling Python `sorted`. -/
def sortStrings : List String → List String
  | [] => []
  | s :: rest => insertSorted s (sortStrings rest)

/-- Second pass of `assign_stable_ids` over the sorted key list: skip
records that already have a stable ID, otherwise generate one (also
generating the collision-free candidate to detect a resolved collision),
store it and add it to the running ID set. -/
def assignGo (ps : List (String × Record)) (existing_stable_ids : List String)
    (assigned_count collision_count : Nat) :
    List String → Except String (List (String × Record) × Nat × Nat)
  | [] => Except.ok (ps, assigned_count, collision_count)
  | key :: rest =>
    match dictLookup ps key with
    | none => assignGo ps existing_stable_ids assigned_count collision_count rest
    | some product =>
      if hasStableId product then
        assignGo ps existing_stable_ids assigned_count collision_count rest
      else
        match generate_stable_id product.manufacturer product.code [],
              generate_stable_id product.manufacturer product.code existing_stable_ids with
        | Except.ok original_stable_id, Except.ok stable_id =>
          let collision_count' :=
            if stable_id ≠ original_stable_id then collision_count + 1
            else collision_count
          assignGo (dictInsert ps key { product with stable_id := some stable_id })
            (existing_stable_ids ++ [stable_id]) (assigned_count + 1)
            collision_count' rest
        | Except.error e, _ => Except.error e
        | _, Except.error e => Except.error e

/-- `ProductDatabase.assign_stable_ids`: assign a stable ID to every
record missing one, in ascending key order, never touching existing IDs;
returns the updated products dict with the assigned and collision
counts (the Python `ValueError` is the `Except.error` case). -/
def assign_stable_ids (ps : List (String × Record)) :
    Except String (List (String × Record) × Nat × Nat) :=
  assignGo ps (collectStableIds ps) 0 0 (sortStrings (ps.map Prod.fst))

/-! ## `export_to_json` -/

/-- Strip matching characters from both ends of a character list, as the
chained Python `str.strip` calls do. -/
def pyStrip (p : Char → Bool) (l : List Char) : List Char :=
  ((l.dropWhile p).reverse.dropWhile p).reverse

/-- One tag or synonym token after
`tag.strip().strip('"').strip("'")`. -/
def stripTagToken (s : String) : String :=
  String.mk
    (pyStrip (fun c => c == '\'') (pyStrip (fun c => c == '"')
      (pyStrip Char.isWhitespace s.data)))

/-- Python `str.split(',')` over the character list: always at least one
field, commas separate fields. -/
def splitOnComma : List Char → List (List Char)
  | [] => [[]]
  | c :: rest =>
    if c = ',' then [] :: splitOnComma rest
    else
      match splitOnComma rest with
      | [] => [[c]]
      | l :: ls => (c :: l) :: ls

/-- The tags conversion of `export_to_json`: split the flat quoted string
on commas, strip each token, drop empties and the sentinel "unknown". -/
def convertTags (tags_str : String) : List String :=
  if tags_str = "" then []
  else
    let tags_list := (splitOnComma tags_str.data).map (fun l => stripTagToken (String.mk l))
    let tags_list := tags_list.filter (fun tag => tag != "" && tag != "unknown")
    if tags_list.isEmpty then [] else tags_list

/-- The synonyms conversion of `export_to_json`: same split and strip,
dropping only empty entries. -/
def convertSynonyms (synonyms_str : String) : List String :=
  if synonyms_str = "" then []
  else
    let synonyms_list := (splitOnComma synonyms_str.data).map (fun l => stripTagToken (String.mk l))
    let synonyms_list := synonyms_list.filter (fun syn => syn != "")
    if synonyms_list.isEmpty then [] else synonyms_list

/-- One exported product object: tags and synonyms as arrays, the four
tracking fields `none` when stripped (`Option` models key absence, and
`discontinued_date` keeps its own nullable value inside). -/
structure ExportRecord where
  manufacturer : String
  code : String
  name : String
  start_date : String
  end_date : String
  manufacturer_description : String
  tags : List String
  synonyms : List String
  coe : String
  type : String
  manufacturer_url : String
  image_path : String
  image_url : String
  stock_type : String
  stable_id : Option String
  status : Option String
  added_date : Option String
  last_seen : Option String
  discontinued_date : Option (Option String)
deriving DecidableEq, Repr

/-- The per-record body of the `export_to_json` loop: copy the record,
convert tags and synonyms to arrays, and pop the four tracking fields
when `strip_metadata` is set. -/
def exportRecord (p : Record) (strip_metadata : Bool) : ExportRecord :=
  { manufacturer := p.manufacturer
    code := p.code
    name := p.name
    start_date := p.start_date
    end_date := p.end_date
    manufacturer_description := p.manufacturer_description
    tags := convertTags p.tags
    synonyms := convertSynonyms p.synonyms
    coe := p.coe
    type := p.type
    manufacturer_url := p.manufacturer_url
    image_path := p.image_path
    image_url := p.image_url
    stock_type := p.stock_type
    stable_id := p.stable_id
    status := if strip_metadata then none else some p.status
    added_date := if strip_metadata then none else some p.added_date
    last_seen := if strip_metadata then none else some p.last_seen
    discontinued_date :=
      if strip_metadata then none else some p.discontinued_date }

/-- Stable insertion for the `(manufacturer, name)` export ordering. -/
def insertByMfrName (x : ExportRecord) : List ExportRecord → List ExportRecord
  | [] => [x]
  | y :: rest =>
    if x.manufacturer < y.manufacturer ∨
        (x.manufacturer = y.manufacturer ∧ x.name ≤ y.name) then
      x :: y :: rest
    else
      y :: insertByMfrName x rest

/-- Stable sort by `(manufacturer, name)`, modelling the Python
`products.sort(key=lambda p: (p['manufacturer'], p['name']))`. -/
def sortByMfrName : List ExportRecord → List ExportRecord
  | [] => []
  | x :: rest => insertByMfrName x (sortByMfrName rest)

/-- The item list built by `export_to_json`: drop discontinued records
unless included, convert each record, sort by `(manufacturer, name)`. -/
def export_items (ps : List (String × Record))
    (include_discontinued strip_metadata : Bool) : List ExportRecord :=
  sortByMfrName
    ((ps.filter
        (fun kp => include_discontinued || kp.2.status != "discontinued")).map
      (fun kp => exportRecord kp.2 strip_metadata))

/-! ## Definitions written from the spec's words, for refinement claims -/

/-- Modelled from the amended C5 sentence: the fixed ID alphabet is the
alphanumeric characters with `I`, `O`, `i`, `l`, `o` excluded. -/
def specAlphabet : List Char :=
  (String.data "0123456789ABCDEFGHIJKLMNOPQRSTUVWXYZabcdefghijklmnopqrstuvwxyz").filter
    (fun c => !(['I', 'O', 'i', 'l', 'o'].contains c))

/-- Modelled from the amended C5 sentence: hash `"manufacturer:code"`,
take the first 4 digest bytes big-endian, and emit the 6 base-57 digits
most significant first. -/
def specCandidateId (manufacturer code : String) : List Char :=
  let n := bytesToNatBE ((sha256 (strBytes (manufacturer ++ ":" ++ code))).take 4)
  (List.range 6).map (fun i => specAlphabet.getD (n / 57 ^ (5 - i) % 57) '0')

/-- Modelled from the amended C8 sentence: remember, per key, the URL of
the first row seen; a later row is dropped exactly when its URL is
non-empty and equal to that remembered first-seen URL. -/
def dedupSpecGo (firstSeen : String → Option String) : List Row → List Row
  | [] => []
  | r :: rest =>
    match firstSeen (rowKey r) with
    | none =>
      r :: dedupSpecGo
        (fun k => if k = rowKey r then some r.manufacturer_url else firstSeen k) rest
    | some u0 =>
      if r.manufacturer_url ≠ "" ∧ u0 = r.manufacturer_url then
        dedupSpecGo firstSeen rest
      else
        r :: dedupSpecGo firstSeen rest

/-! ## Association-list (Python dict) lemmas -/

theorem dictLookup_insert {α : Type} (d : List (String × α)) (k k' : String) (v : α) :
    dictLookup (dictInsert d k v) k' =
      if k = k' then some v else dictLookup d k' := by
  induction d with
  | nil =>
    simp only [dictInsert, dictLookup]
  | cons kv rest ih =>
    obtain ⟨k0, v0⟩ := kv
    by_cases h0 : k0 = k
    · subst h0
      by_cases h1 : k0 = k'
      · subst h1
        simp [dictInsert, dictLookup]
      · simp [dictInsert, dictLookup, h1]
    · by_cases h1 : k0 = k'
      · subst h1
        simp [dictInsert, dictLookup, h0, Ne.symm h0]
      · simp [dictInsert, dictLookup, h0, h1, ih]

theorem dictLookup_insert_self {α : Type} (d : List (String × α)) (k : String) (v : α) :
    dictLookup (dictInsert d k v) k = some v := by
  simp [dictLookup_insert]

theorem dictLookup_insert_ne {α : Type} (d : List (String × α)) (k k' : String) (v : α)
    (h : k ≠ k') : dictLookup (dictInsert d k v) k' = dictLookup d k' := by
  simp [dictLookup_insert, h]

theorem dictInsert_lookup_self {α : Type} (d : List (String × α)) (k : String) (v : α)
    (h : dictLookup d k = some v) : dictInsert d k v = d := by
  induction d with
  | nil => simp [dictLookup] at h
  | cons kv rest ih =>
    obtain ⟨k0, v0⟩ := kv
    by_cases h0 : k0 = k
    · subst h0
      have hv : v0 = v := by simpa [dictLookup] using h
      subst hv
      simp [dictInsert]
    · simp only [dictLookup, if_neg h0] at h
      simp [dictInsert, h0, ih h]

theorem dictLookup_isSome_insert {α : Type} (d : List (String × α)) (k k' : String)
    (v : α) (h : (dictLookup d k').isSome) :
    (dictLookup (dictInsert d k v) k').isSome := by
  rw [dictLookup_insert]
  split
  · simp
  · exact h

theorem mem_dictInsert {α : Type} (d : List (String × α)) (k : String) (v : α)
    (x : String × α) (hx : x ∈ dictInsert d k v) : x = (k, v) ∨ x ∈ d := by
  induction d with
  | nil =>
    simp only [dictInsert] at hx
    simp at hx
    simp [hx]
  | cons kv rest ih =>
    obtain ⟨k0, v0⟩ := kv
    by_cases h0 : k0 = k
    · subst h0
      simp only [dictInsert, if_pos rfl] at hx
      rcases List.mem_cons.mp hx with h | h
      · exact Or.inl h
      · exact Or.inr (List.mem_cons_of_mem _ h)
    · simp only [dictInsert, if_neg h0] at hx
      rcases List.mem_cons.mp hx with h | h
      · exact Or.inr (h ▸ List.mem_cons_self _ _)
      · rcases ih h with h' | h'
        · exact Or.inl h'
        · exact Or.inr (List.mem_cons_of_mem _ h')

theorem dictLookup_map {α β : Type} (f : String → α → β) (d : List (String × α))
    (k : String) :
    dictLookup (d.map (fun kp => (kp.1, f kp.1 kp.2))) k =
      (dictLookup d k).map (f k) := by
  induction d with
  | nil => simp [dictLookup]
  | cons kv rest ih =>
    obtain ⟨k0, v0⟩ := kv
    by_cases h0 : k0 = k
    · subst h0
      simp [dictLookup]
    · simp [dictLookup, h0, ih]

/-! ## Reconciliation-loop lemmas -/

theorem processRows_cons (ps : List (String × Record)) (today : String) (stats : Stats)
    (r : Row) (rest : List Row) :
    processRows ps today stats (r :: rest) =
      processRows (reconcileRow ps r today stats).1 today
        (reconcileRow ps r today stats).2 rest := rfl

/-- Every branch of `reconcileRow` stores via `dictInsert` at the row's
key. -/
theorem reconcileRow_fst (ps : List (String × Record)) (r : Row) (today : String)
    (stats : Stats) :
    ∃ q, (reconcileRow ps r today stats).1 = dictInsert ps (rowKey r) q := by
  simp only [reconcileRow]
  cases dictLookup ps (rowKey r) with
  | none => exact ⟨_, rfl⟩
  | some ex =>
    simp only []
    split
    · split
      · exact ⟨_, rfl⟩
      · exact ⟨_, rfl⟩
    · split
      · exact ⟨_, rfl⟩
      · exact ⟨_, rfl⟩

theorem reconcileRow_preserves (ps : List (String × Record)) (r : Row) (today : String)
    (stats : Stats) (k : String) (h : (dictLookup ps k).isSome) :
    (dictLookup (reconcileRow ps r today stats).1 k).isSome := by
  obtain ⟨q, hq⟩ := reconcileRow_fst ps r today stats
  rw [hq]
  exact dictLookup_isSome_insert _ _ _ _ h

theorem processRows_preserves (rows : List Row) :
    ∀ ps today stats k, (dictLookup ps k).isSome →
      (dictLookup (processRows ps today stats rows).1 k).isSome := by
  induction rows with
  | nil => intro ps today stats k h; exact h
  | cons r rest ih =>
    intro ps today stats k h
    rw [processRows_cons]
    exact ih _ _ _ _ (reconcileRow_preserves ps r today stats k h)

theorem sweepGo_fst (new_keys : List String) (today : String)
    (sm : Option (List String)) (bp : List String) (ps : List (String × Record)) :
    (sweepGo new_keys today sm bp ps).1 =
      ps.map (fun kp => (kp.1, (sweepRecord new_keys today sm bp kp.1 kp.2).1)) := by
  induction ps with
  | nil => rfl
  | cons kv rest ih =>
    obtain ⟨k0, v0⟩ := kv
    simp only [sweepGo, List.map_cons]
    rw [← ih]

/-! ## Claim C1 -/

/-- C1: for every persisted store and every batch on which the
reconciliation pass succeeds (no duplicate-key conflict), the resulting
store contains every key of the input store — no record is deleted. -/
theorem claim_C1_no_deletion (db : DB) (rows : List Row) (today : String)
    (sm : Option (List String)) (bp : List String) (db' : DB) (stats : Stats)
    (h : update_from_scraped_data db rows today sm bp = some (db', stats)) :
    ∀ k, (dictLookup db.products k).isSome → (dictLookup db'.products k).isSome := by
  intro k hk
  simp only [update_from_scraped_data] at h
  split at h
  · exact absurd h (by simp)
  · simp only [Option.some.injEq, Prod.mk.injEq] at h
    obtain ⟨hdb, _⟩ := h
    rw [← hdb]
    simp only
    rw [sweepGo_fst,
      dictLookup_map
        (fun k0 p0 =>
          (sweepRecord (List.map rowKey (preprocess db rows)) today sm bp k0 p0).1)]
    have h1 := processRows_preserves (preprocess db rows) db.products today ⟨0, 0, 0, 0⟩ k hk
    simpa using h1

def wRow : Row :=
  ⟨"BB", "001", "Blue Rod", "", "", "", "", "", "104", "rod", "urlA", "", "", ""⟩

def wRec : Record :=
  ⟨"available", "2024-01-01", "2024-01-01", none,
   "BB", "001", "Blue Rod", "", "", "", "", "", "104", "rod", "urlA", "", "", "", none⟩

def wDB : DB := ⟨[("BB:001", wRec)], [], []⟩

theorem claim_C1_no_deletion_witness :
    (dictLookup wDB.products "BB:001").isSome :=
  claim_C1_no_deletion wDB [] "2024-02-01" (some []) [] wDB ⟨0, 0, 0, 0⟩
    (by decide) "BB:001" (by decide)

/-! ## Claim C2 -/

theorem two_mem_length_le {α : Type} (l : List α) (a b : α) (ha : a ∈ l) (hb : b ∈ l)
    (hab : a ≠ b) : 2 ≤ l.length := by
  induction l with
  | nil => simp at ha
  | cons x rest ih =>
    rcases List.mem_cons.mp ha with h1 | h1
    · rcases List.mem_cons.mp hb with h2 | h2
      · exact absurd (h1.trans h2.symm) hab
      · have : 1 ≤ rest.length := List.length_pos.mpr (List.ne_nil_of_mem h2)
        simp only [List.length_cons]
        omega
    · have : 1 ≤ rest.length := List.length_pos.mpr (List.ne_nil_of_mem h1)
      simp only [List.length_cons]
      omega

/-- Two distinct rows with the same key force a key count of at least 2
in the batch's key list. -/
theorem count_rowKey_ge_two (l : List Row) (r1 r2 : Row) (h1 : r1 ∈ l) (h2 : r2 ∈ l)
    (hkey : rowKey r1 = rowKey r2) (hne : r1 ≠ r2) :
    2 ≤ (l.map rowKey).count (rowKey r1) := by
  have hcount : (l.map rowKey).count (rowKey r1) =
      (l.filter (fun r => rowKey r == rowKey r1)).length := by
    rw [List.count, List.countP_map, List.countP_eq_length_filter]
    rfl
  rw [hcount]
  refine two_mem_length_le _ r1 r2 ?_ ?_ hne
  · exact List.mem_filter.mpr ⟨h1, by simp⟩
  · exact List.mem_filter.mpr ⟨h2, by simp [hkey]⟩

/-- C2: if the preprocessed batch still holds two rows with the same
product key but different URLs, `detect_duplicates` fires and
`update_from_scraped_data` returns `none` (the Python code returns
`(None, report)` before mutating or saving anything). -/
theorem claim_C2_conflict_aborts (db : DB) (rows : List Row) (today : String)
    (sm : Option (List String)) (bp : List String) (r1 r2 : Row)
    (h1 : r1 ∈ preprocess db rows) (h2 : r2 ∈ preprocess db rows)
    (hkey : rowKey r1 = rowKey r2) (hurl : r1.manufacturer_url ≠ r2.manufacturer_url) :
    detect_duplicates (preprocess db rows) = true ∧
      update_from_scraped_data db rows today sm bp = none := by
  have hne : r1 ≠ r2 := fun h => hurl (h ▸ rfl)
  have hdet : detect_duplicates (preprocess db rows) = true := by
    simp only [detect_duplicates]
    rw [List.any_eq_true]
    refine ⟨rowKey r1, List.mem_map_of_mem rowKey h1, ?_⟩
    rw [decide_eq_true_iff]
    have := count_rowKey_ge_two (preprocess db rows) r1 r2 h1 h2 hkey hne
    omega
  refine ⟨hdet, ?_⟩
  simp only [update_from_scraped_data]
  rw [hdet]
  simp

def wRowB : Row :=
  ⟨"BB", "001", "Blue Rod v2", "", "", "", "", "", "104", "rod", "urlB", "", "", ""⟩

theorem claim_C2_conflict_aborts_witness :
    detect_duplicates (preprocess ⟨[], [], []⟩ [wRow, wRowB]) = true ∧
      update_from_scraped_data ⟨[], [], []⟩ [wRow, wRowB] "2024-02-01" none [] = none :=
  claim_C2_conflict_aborts ⟨[], [], []⟩ [wRow, wRowB] "2024-02-01" none [] wRow wRowB
    (by decide) (by decide) (by decide) (by decide)

/-! ## The record produced at a processed row's key -/

/-- What one pass of the new/updated loop stores at a row's key, as a
function of the record previously there (if any). -/
def reconciledRecord (prior : Option Record) (r : Row) (today : String) : Record :=
  match prior with
  | none => create_product_record r today
  | some p =>
    let base :=
      if catalogEq p r then { p with last_seen := today }
      else { setCatalog p r with last_seen := today }
    if base.status = "discontinued" then
      { base with status := "available", discontinued_date := none }
    else base

theorem reconcileRow_fst_eq (ps : List (String × Record)) (r : Row) (today : String)
    (stats : Stats) :
    (reconcileRow ps r today stats).1 =
      dictInsert ps (rowKey r) (reconciledRecord (dictLookup ps (rowKey r)) r today) := by
  simp only [reconcileRow, reconciledRecord]
  cases dictLookup ps (rowKey r) with
  | none => rfl
  | some p =>
    simp only []
    split
    · split
      · rfl
      · rfl
    · split
      · rfl
      · rfl

theorem catalogEq_create (r : Row) (today : String) :
    catalogEq (create_product_record r today) r = true := by
  simp [catalogEq, create_product_record]

theorem catalogEq_setCatalog (p : Record) (r : Row) :
    catalogEq (setCatalog p r) r = true := by
  simp [catalogEq, setCatalog]

theorem reconciledRecord_catalogEq (prior : Option Record) (r : Row) (today : String) :
    catalogEq (reconciledRecord prior r today) r = true := by
  cases prior with
  | none => exact catalogEq_create r today
  | some p =>
    simp only [reconciledRecord]
    by_cases hc : catalogEq p r <;>
      simp only [hc, if_true, if_false, Bool.false_eq_true] <;> split
    · simpa [catalogEq] using hc
    · simpa [catalogEq] using hc
    · simpa [catalogEq] using catalogEq_setCatalog p r
    · simpa [catalogEq] using catalogEq_setCatalog p r

theorem reconciledRecord_last_seen (prior : Option Record) (r : Row) (today : String) :
    (reconciledRecord prior r today).last_seen = today := by
  cases prior with
  | none => rfl
  | some p =>
    simp only [reconciledRecord]
    split <;> split <;> rfl

theorem reconciledRecord_status (prior : Option Record) (r : Row) (today : String) :
    (reconciledRecord prior r today).status ≠ "discontinued" := by
  cases prior with
  | none => simp [reconciledRecord, create_product_record]
  | some p =>
    simp only [reconciledRecord]
    split <;> split <;> simp_all

theorem reconciledRecord_pairing (prior : Option Record) (r : Row) (today : String)
    (hp : ∀ p, prior = some p → p.status = "available" → p.discontinued_date = none) :
    (reconciledRecord prior r today).status = "available" →
      (reconciledRecord prior r today).discontinued_date = none := by
  cases prior with
  | none => intro _; rfl
  | some p =>
    have hp' := hp p rfl
    simp only [reconciledRecord]
    split <;> split <;> simp_all [setCatalog]

/-- A record already reconciled today is stored back unchanged and counted
as unchanged. -/
theorem reconcileRow_noop (ps : List (String × Record)) (r : Row) (today : String)
    (stats : Stats) (p : Record) (hl : dictLookup ps (rowKey r) = some p)
    (hc : catalogEq p r = true) (hls : p.last_seen = today)
    (hst : p.status ≠ "discontinued") :
    reconcileRow ps r today stats =
      (ps, { stats with unchanged := stats.unchanged + 1 }) := by
  have hbase : { p with last_seen := today } = p := by
    cases p
    simp_all
  simp only [reconcileRow, hl, hc, if_true]
  rw [hbase]
  simp only [if_neg hst]
  rw [dictInsert_lookup_self ps (rowKey r) p hl]

/-! ## Lookup through the loop -/

theorem reconcileRow_lookup_ne (ps : List (String × Record)) (r : Row) (today : String)
    (stats : Stats) (k : String) (hk : k ≠ rowKey r) :
    dictLookup (reconcileRow ps r today stats).1 k = dictLookup ps k := by
  rw [reconcileRow_fst_eq]
  exact dictLookup_insert_ne _ _ _ _ (Ne.symm hk)

theorem processRows_lookup_not_mem (rows : List Row) :
    ∀ ps today stats k, k ∉ rows.map rowKey →
      dictLookup (processRows ps today stats rows).1 k = dictLookup ps k := by
  induction rows with
  | nil => intro ps today stats k _; rfl
  | cons r rest ih =>
    intro ps today stats k hk
    rw [List.map_cons, List.mem_cons] at hk
    push_neg at hk
    rw [processRows_cons, ih _ _ _ _ hk.2, reconcileRow_lookup_ne _ _ _ _ _ hk.1]

theorem processRows_lookup_mem (rows : List Row) :
    ∀ ps today stats r, r ∈ rows → (rows.map rowKey).Nodup →
      dictLookup (processRows ps today stats rows).1 (rowKey r) =
        some (reconciledRecord (dictLookup ps (rowKey r)) r today) := by
  induction rows with
  | nil => intro ps today stats r hr _; simp at hr
  | cons x rest ih =>
    intro ps today stats r hr hnd
    rw [List.map_cons, List.nodup_cons] at hnd
    rw [processRows_cons]
    rcases List.mem_cons.mp hr with h1 | h1
    · subst h1
      rw [processRows_lookup_not_mem rest _ _ _ _ hnd.1]
      rw [reconcileRow_fst_eq, dictLookup_insert_self]
    · have hkne : rowKey r ≠ rowKey x := by
        intro heq
        exact hnd.1 (heq ▸ List.mem_map_of_mem rowKey h1)
      rw [ih _ _ _ _ h1 hnd.2, reconcileRow_lookup_ne _ _ _ _ _ hkne]

/-- A run with no duplicate-key conflict has pairwise distinct keys in the
batch. -/
theorem detect_duplicates_false_nodup (rows : List Row)
    (h : detect_duplicates rows = false) : (rows.map rowKey).Nodup := by
  rw [List.nodup_iff_count_le_one]
  intro a
  by_cases ha : a ∈ rows.map rowKey
  · simp only [detect_duplicates] at h
    rw [List.any_eq_false] at h
    have := h a ha
    simp only [decide_eq_true_eq, not_lt] at this
    exact this
  · rw [List.count_eq_zero_of_not_mem ha]
    omega

/-! ## Structure of a successful update -/

/-- A successful `update_from_scraped_data` call in explicit form: the
conflict test was false and the result is the sweep of the processed
store. -/
theorem update_some_eq (db : DB) (rows : List Row) (today : String)
    (sm : Option (List String)) (bp : List String) (db' : DB) (st : Stats)
    (h : update_from_scraped_data db rows today sm bp = some (db', st)) :
    detect_duplicates (preprocess db rows) = false ∧
      db'.products =
        (sweepGo ((preprocess db rows).map rowKey) today sm bp
          (processRows db.products today ⟨0, 0, 0, 0⟩ (preprocess db rows)).1).1 ∧
      db'.excluded_urls = db.excluded_urls ∧ db'.sku_overrides = db.sku_overrides := by
  simp only [update_from_scraped_data] at h
  split at h
  · exact absurd h (by simp)
  · rename_i hdet
    simp only [Option.some.injEq, Prod.mk.injEq] at h
    obtain ⟨hdb, _⟩ := h
    rw [← hdb]
    exact ⟨by simpa using hdet, rfl, rfl, rfl⟩
/-- The sweep discontinues an in-scope, non-bot-protected, available
record whose key the batch misses. -/
theorem sweepRecord_discontinues (nk : List String) (t : String)
    (sm : Option (List String)) (bp : List String) (k : String) (p : Record)
    (hscope : ∀ ms, sm = some ms → p.manufacturer ∈ ms)
    (hbp : p.manufacturer ∉ bp) (hk : k ∉ nk) (hav : p.status = "available") :
    sweepRecord nk t sm bp k p =
      ({ p with status := "discontinued", discontinued_date := some t }, 1) := by
  cases sm with
  | none =>
    simp only [sweepRecord]
    rw [if_neg (by simp), if_neg hbp, if_pos (And.intro hk hav)]
  | some ms =>
    have hin : p.manufacturer ∈ ms := hscope ms rfl
    simp only [sweepRecord]
    rw [if_neg (by simpa using hin), if_neg hbp, if_pos (And.intro hk hav)]

/-- The sweep never touches a record whose key the batch carries. -/
theorem sweepRecord_id_of_mem (nk : List String) (t : String)
    (sm : Option (List String)) (bp : List String) (k : String) (p : Record)
    (hk : k ∈ nk) : sweepRecord nk t sm bp k p = (p, 0) := by
  simp only [sweepRecord]
  split
  · rfl
  · split
    · rfl
    · rw [if_neg (fun hcond => hcond.1 hk)]

/-- C3: (discontinue) a product in the store whose key the conflict-free
preprocessed batch omits, whose manufacturer is in scope and not
bot-protected, and whose status is available is marked discontinued with
today's date; (reactivate) a discontinued product whose key the batch
carries is restored to available with the discontinued date cleared —
from any store state, hence regardless of intervening runs. -/
theorem claim_C3_discontinue_reactivate_roundtrip :
    (∀ db rows today sm bp db' st K p,
        update_from_scraped_data db rows today sm bp = some (db', st) →
        dictLookup db.products K = some p →
        p.status = "available" →
        K ∉ (preprocess db rows).map rowKey →
        (∀ ms, sm = some ms → p.manufacturer ∈ ms) →
        p.manufacturer ∉ bp →
        dictLookup db'.products K =
          some { p with status := "discontinued", discontinued_date := some today }) ∧
    (∀ db rows today sm bp db' st r p,
        update_from_scraped_data db rows today sm bp = some (db', st) →
        dictLookup db.products (rowKey r) = some p →
        p.status = "discontinued" →
        r ∈ preprocess db rows →
        ∃ q, dictLookup db'.products (rowKey r) = some q ∧
          q.status = "available" ∧ q.discontinued_date = none) := by
  constructor
  · intro db rows today sm bp db' st K p h hl hav hK hscope hbp
    obtain ⟨hdet, hprod, -, -⟩ := update_some_eq db rows today sm bp db' st h
    rw [hprod, sweepGo_fst,
      dictLookup_map
        (fun k0 p0 =>
          (sweepRecord ((preprocess db rows).map rowKey) today sm bp k0 p0).1)]
    rw [processRows_lookup_not_mem _ _ _ _ _ hK, hl]
    simp only [Option.map_some']
    rw [sweepRecord_discontinues _ _ _ _ _ _ hscope hbp hK hav]
  · intro db rows today sm bp db' st r p h hl hdisc hr
    obtain ⟨hdet, hprod, -, -⟩ := update_some_eq db rows today sm bp db' st h
    have hnd := detect_duplicates_false_nodup _ hdet
    rw [hprod, sweepGo_fst,
      dictLookup_map
        (fun k0 p0 =>
          (sweepRecord ((preprocess db rows).map rowKey) today sm bp k0 p0).1)]
    rw [processRows_lookup_mem _ _ _ _ _ hr hnd]
    simp only [Option.map_some']
    have hmem : rowKey r ∈ (preprocess db rows).map rowKey :=
      List.mem_map_of_mem rowKey hr
    rw [sweepRecord_id_of_mem _ _ _ _ _ _ hmem]
    refine ⟨_, rfl, ?_⟩
    rw [hl]
    by_cases hcat : catalogEq p r = true
    · simp only [reconciledRecord, hcat, if_true]
      rw [if_pos hdisc]
      exact ⟨rfl, rfl⟩
    · simp only [reconciledRecord, hcat, if_false, Bool.false_eq_true]
      have hdisc2 : (setCatalog p r).status = "discontinued" := hdisc
      rw [if_pos hdisc2]
      exact ⟨rfl, rfl⟩

def wRecDisc : Record :=
  { wRec with status := "discontinued", discontinued_date := some "2024-03-01" }

theorem claim_C3_discontinue_reactivate_roundtrip_witness :
    (dictLookup (DB.mk [("BB:001", wRecDisc)] [] []).products "BB:001" =
        some { wRec with status := "discontinued",
                         discontinued_date := some "2024-03-01" }) ∧
    (∃ q, dictLookup
            (DB.mk [("BB:001", { wRec with last_seen := "2024-04-01" })] [] []).products
            (rowKey wRow) = some q ∧
          q.status = "available" ∧ q.discontinued_date = none) :=
  ⟨claim_C3_discontinue_reactivate_roundtrip.1 wDB [] "2024-03-01" none []
      ⟨[("BB:001", wRecDisc)], [], []⟩ ⟨0, 0, 1, 0⟩ "BB:001" wRec
      (by decide) (by decide) (by decide) (by decide) (fun ms h => nomatch h)
      (by decide),
   claim_C3_discontinue_reactivate_roundtrip.2
      ⟨[("BB:001", wRecDisc)], [], []⟩ [wRow] "2024-04-01" none []
      ⟨[("BB:001", { wRec with last_seen := "2024-04-01" })], [], []⟩
      ⟨0, 1, 0, 0⟩ wRow wRecDisc
      (by decide) (by decide) (by decide) (by decide)⟩

/-! ## Idempotence machinery -/

/-- Case analysis of the sweep on one record: either untouched, or marked
discontinued today because it was available, in scope and missing from
the batch. -/
theorem sweepRecord_eq (nk : List String) (t : String) (sm : Option (List String))
    (bp : List String) (k : String) (p : Record) :
    sweepRecord nk t sm bp k p = (p, 0) ∨
      (sweepRecord nk t sm bp k p =
          ({ p with status := "discontinued", discontinued_date := some t }, 1) ∧
        k ∉ nk ∧ p.status = "available") := by
  simp only [sweepRecord]
  split
  · exact Or.inl rfl
  · split
    · exact Or.inl rfl
    · split
      · rename_i hcond
        exact Or.inr ⟨rfl, hcond⟩
      · exact Or.inl rfl

/-- Sweeping an already-swept record changes nothing and counts nothing. -/
theorem sweepRecord_involutive (nk : List String) (t : String)
    (sm : Option (List String)) (bp : List String) (k : String) (p : Record) :
    sweepRecord nk t sm bp k ((sweepRecord nk t sm bp k p).1) =
      ((sweepRecord nk t sm bp k p).1, 0) := by
  rcases sweepRecord_eq nk t sm bp k p with h | ⟨h, hk, hav⟩
  · rw [h]
    exact h
  · rw [h]
    simp only [sweepRecord]
    split
    · rfl
    · split
      · rfl
      · rw [if_neg (fun hcond => by simpa using hcond.2)]

/-- A second sweep over an already-swept store is the identity with zero
newly discontinued records. -/
theorem sweepGo_involutive (nk : List String) (t : String) (sm : Option (List String))
    (bp : List String) (ps : List (String × Record)) :
    sweepGo nk t sm bp (sweepGo nk t sm bp ps).1 = ((sweepGo nk t sm bp ps).1, 0) := by
  induction ps with
  | nil => rfl
  | cons kv rest ih =>
    obtain ⟨k, p⟩ := kv
    have h1 : (sweepGo nk t sm bp ((k, p) :: rest)).1 =
        (k, (sweepRecord nk t sm bp k p).1) :: (sweepGo nk t sm bp rest).1 := rfl
    have h2 : sweepGo nk t sm bp
        ((k, (sweepRecord nk t sm bp k p).1) :: (sweepGo nk t sm bp rest).1) =
        ((k, (sweepRecord nk t sm bp k ((sweepRecord nk t sm bp k p).1)).1) ::
            (sweepGo nk t sm bp ((sweepGo nk t sm bp rest).1)).1,
          (sweepRecord nk t sm bp k ((sweepRecord nk t sm bp k p).1)).2 +
            (sweepGo nk t sm bp ((sweepGo nk t sm bp rest).1)).2) := rfl
    rw [h1, h2, sweepRecord_involutive, ih]
    simp

/-- The row loop on a store whose records already match today's batch is
the identity, counting every row as unchanged. -/
theorem processRows_idem (rows : List Row) :
    ∀ ps today stats,
      (∀ r ∈ rows, ∃ p, dictLookup ps (rowKey r) = some p ∧ catalogEq p r = true ∧
        p.last_seen = today ∧ p.status ≠ "discontinued") →
      processRows ps today stats rows =
        (ps, { stats with unchanged := stats.unchanged + rows.length }) := by
  induction rows with
  | nil =>
    intro ps today stats _
    simp [processRows]
  | cons r rest ih =>
    intro ps today stats hcond
    obtain ⟨p, hl, hc, hls, hst⟩ := hcond r (List.mem_cons_self r rest)
    rw [processRows_cons, reconcileRow_noop ps r today stats p hl hc hls hst]
    simp only []
    rw [ih ps today _ (fun r' hr' => hcond r' (List.mem_cons_of_mem r hr'))]
    simp only [List.length_cons, Prod.mk.injEq, Stats.mk.injEq, true_and]
    omega

/-- Preprocessing only reads the two side tables. -/
theorem preprocess_congr (db1 db : DB) (rows : List Row)
    (hexc : db1.excluded_urls = db.excluded_urls)
    (hsku : db1.sku_overrides = db.sku_overrides) :
    preprocess db1 rows = preprocess db rows := by
  simp only [preprocess, hexc, hsku]

/-- C4: re-applying the same batch with the same `today` to the store a
successful pass produced returns that store unchanged and a stats record
with zero new, zero updated, zero discontinued, and every preprocessed
row counted unchanged. -/
theorem claim_C4_idempotent (db : DB) (rows : List Row) (today : String)
    (sm : Option (List String)) (bp : List String) (db1 : DB) (st1 : Stats)
    (h : update_from_scraped_data db rows today sm bp = some (db1, st1)) :
    update_from_scraped_data db1 rows today sm bp =
      some (db1, ⟨0, 0, 0, (preprocess db1 rows).length⟩) := by
  obtain ⟨hdet, hprod, hexc, hsku⟩ := update_some_eq db rows today sm bp db1 st1 h
  have hpre : preprocess db1 rows = preprocess db rows :=
    preprocess_congr db1 db rows hexc hsku
  have hnd := detect_duplicates_false_nodup _ hdet
  have hidle : ∀ r ∈ preprocess db rows,
      ∃ p, dictLookup db1.products (rowKey r) = some p ∧ catalogEq p r = true ∧
        p.last_seen = today ∧ p.status ≠ "discontinued" := by
    intro r hr
    rw [hprod, sweepGo_fst,
      dictLookup_map
        (fun k0 p0 =>
          (sweepRecord ((preprocess db rows).map rowKey) today sm bp k0 p0).1)]
    rw [processRows_lookup_mem _ _ _ _ _ hr hnd]
    rw [Option.map_some']
    rw [sweepRecord_id_of_mem _ _ _ _ _ _ (List.mem_map_of_mem rowKey hr)]
    exact ⟨_, rfl, reconciledRecord_catalogEq _ r today,
      reconciledRecord_last_seen _ r today, reconciledRecord_status _ r today⟩
  simp only [update_from_scraped_data, hpre, hdet, Bool.false_eq_true, if_false]
  rw [processRows_idem (preprocess db rows) db1.products today ⟨0, 0, 0, 0⟩ hidle]
  simp only []
  have hswept : sweepGo ((preprocess db rows).map rowKey) today sm bp db1.products =
      (db1.products, 0) := by
    rw [hprod]
    exact sweepGo_involutive _ _ _ _ _
  rw [hswept]
  simp only [Option.some.injEq, Prod.mk.injEq]
  constructor
  · cases db1
    trivial
  · simp [hpre]

def wRow2 : Row :=
  ⟨"BB", "002", "Red Rod", "", "", "", "", "", "104", "rod", "urlC", "", "", ""⟩

theorem claim_C4_idempotent_witness :
    update_from_scraped_data
        (DB.mk [("BB:001", wRec),
                ("BB:002", create_product_record wRow2 "2024-05-01")] [] [])
        [wRow, wRow2] "2024-05-01" none [] =
      some (DB.mk [("BB:001", { wRec with last_seen := "2024-05-01" }),
                   ("BB:002", create_product_record wRow2 "2024-05-01")] [] [],
            ⟨0, 0, 0, 2⟩) :=
  claim_C4_idempotent
    (DB.mk [("BB:001", wRec)] [] []) [wRow, wRow2] "2024-05-01" none []
    (DB.mk [("BB:001", { wRec with last_seen := "2024-05-01" }),
            ("BB:002", create_product_record wRow2 "2024-05-01")] [] [])
    ⟨1, 0, 0, 1⟩ (by decide)

/-! ## Pairing invariant (status vs discontinued_date) -/

theorem dictLookup_mem {α : Type} (d : List (String × α)) (k : String) (v : α)
    (h : dictLookup d k = some v) : (k, v) ∈ d := by
  induction d with
  | nil => simp [dictLookup] at h
  | cons kv rest ih =>
    obtain ⟨k0, v0⟩ := kv
    by_cases h0 : k0 = k
    · subst h0
      have hv : v0 = v := by simpa [dictLookup] using h
      subst hv
      exact List.mem_cons_self _ _
    · simp only [dictLookup, if_neg h0] at h
      exact List.mem_cons_of_mem _ (ih h)

/-- The pairing invariant on one record: an available record carries no
discontinued date. -/
def pairingInv (p : Record) : Prop :=
  p.status = "available" → p.discontinued_date = none

theorem processRows_entries_pairing (rows : List Row) :
    ∀ ps today stats, (∀ kp ∈ ps, pairingInv kp.2) →
      ∀ kp ∈ (processRows ps today stats rows).1, pairingInv kp.2 := by
  induction rows with
  | nil => intro ps today stats hinv kp hkp; exact hinv kp hkp
  | cons r rest ih =>
    intro ps today stats hinv kp hkp
    rw [processRows_cons] at hkp
    refine ih _ _ _ ?_ kp hkp
    intro kq hkq
    rw [reconcileRow_fst_eq] at hkq
    rcases mem_dictInsert _ _ _ _ hkq with hcase | hcase
    · rw [hcase]
      refine reconciledRecord_pairing _ r today ?_
      intro p hp hav
      exact hinv (rowKey r, p) (dictLookup_mem _ _ _ hp) hav
    · exact hinv kq hcase

theorem sweepGo_entries_pairing (nk : List String) (t : String)
    (sm : Option (List String)) (bp : List String) (ps : List (String × Record))
    (hinv : ∀ kp ∈ ps, pairingInv kp.2) :
    ∀ kp ∈ (sweepGo nk t sm bp ps).1, pairingInv kp.2 := by
  intro kp hkp
  rw [sweepGo_fst] at hkp
  obtain ⟨kq, hkq, heq⟩ := List.mem_map.mp hkp
  rcases sweepRecord_eq nk t sm bp kq.1 kq.2 with hcase | ⟨hcase, -, -⟩
  · rw [hcase] at heq
    rw [← heq]
    exact hinv kq hkq
  · rw [hcase] at heq
    rw [← heq]
    intro hav
    exact absurd hav (by simp)

/-- C10: when every record of the store pairs status with
discontinued_date (available implies no date), every record of the
reconciled store does too, and a record the pass newly marks discontinued
carries today's date. -/
theorem claim_C10_pairing (db : DB) (rows : List Row) (today : String)
    (sm : Option (List String)) (bp : List String) (db' : DB) (st : Stats)
    (h : update_from_scraped_data db rows today sm bp = some (db', st))
    (hinv : ∀ kp ∈ db.products,
      kp.2.status = "available" → kp.2.discontinued_date = none) :
    (∀ kp ∈ db'.products,
      kp.2.status = "available" → kp.2.discontinued_date = none) ∧
    (∀ K p q, dictLookup db.products K = some p →
      dictLookup db'.products K = some q →
      p.status ≠ "discontinued" → q.status = "discontinued" →
      q.discontinued_date = some today) := by
  obtain ⟨hdet, hprod, -, -⟩ := update_some_eq db rows today sm bp db' st h
  have hnd := detect_duplicates_false_nodup _ hdet
  constructor
  · rw [hprod]
    exact sweepGo_entries_pairing _ _ _ _ _
      (processRows_entries_pairing _ _ _ _ hinv)
  · intro K p q hp hq hpstat hqstat
    rw [hprod, sweepGo_fst,
      dictLookup_map
        (fun k0 p0 =>
          (sweepRecord ((preprocess db rows).map rowKey) today sm bp k0 p0).1)] at hq
    by_cases hK : K ∈ (preprocess db rows).map rowKey
    · obtain ⟨r, hr, hkr⟩ := List.mem_map.mp hK
      subst hkr
      rw [processRows_lookup_mem _ _ _ _ _ hr hnd, Option.map_some'] at hq
      rw [sweepRecord_id_of_mem _ _ _ _ _ _ (List.mem_map_of_mem rowKey hr)] at hq
      injection hq with hq
      rw [← hq] at hqstat
      exact absurd hqstat (reconciledRecord_status _ _ _)
    · rw [processRows_lookup_not_mem _ _ _ _ _ hK, hp, Option.map_some'] at hq
      injection hq with hq
      rcases sweepRecord_eq ((preprocess db rows).map rowKey) today sm bp K p
        with hcase | ⟨hcase, -, -⟩
      · rw [hcase] at hq
        rw [← hq] at hqstat
        exact absurd hqstat hpstat
      · rw [hcase] at hq
        rw [← hq]

theorem claim_C10_pairing_witness :
    wRecDisc.discontinued_date = some "2024-03-01" :=
  (claim_C10_pairing wDB [] "2024-03-01" none []
      ⟨[("BB:001", wRecDisc)], [], []⟩ ⟨0, 0, 1, 0⟩ (by decide) (by decide)).2
    "BB:001" wRec wRecDisc (by decide) (by decide) (by decide) (by decide)

/-! ## Claim C8: same-URL dedup -/

def wRowE : Row :=
  ⟨"BB", "003", "Clear Rod", "", "", "", "", "", "104", "rod", "", "", "", ""⟩

/-- C8 counterexample: two identical rows with the same key and the same
(empty) URL — the claim says the later row is dropped and that the output
never holds two rows with the same key and URL, but the code keeps both
because the shared URL is empty. -/
theorem claim_C8_counterexample :
    wRowE.manufacturer_url = "" ∧
      (deduplicate_same_url [wRowE, wRowE]).1 = [wRowE, wRowE] :=
  ⟨rfl, by decide⟩

theorem dedupGo_eq_spec (rows : List Row) :
    ∀ (seen : List (String × String)) (fs : String → Option String),
      (∀ k, dictLookup seen k = fs k) →
      (dedupGo seen rows).1 = dedupSpecGo fs rows := by
  induction rows with
  | nil => intro seen fs _; rfl
  | cons r rest ih =>
    intro seen fs hagree
    simp only [dedupGo, dedupSpecGo]
    rw [← hagree (rowKey r)]
    cases hl : dictLookup seen (rowKey r) with
    | none =>
      simp only []
      congr 1
      apply ih
      intro k
      rw [dictLookup_insert]
      by_cases hk : rowKey r = k
      · subst hk
        simp
      · rw [if_neg hk, if_neg (fun hk' => hk hk'.symm)]
        exact hagree k
    | some u0 =>
      simp only []
      by_cases hc : u0 = r.manufacturer_url ∧ r.manufacturer_url ≠ ""
      · rw [if_pos hc, if_pos ⟨hc.2, hc.1⟩]
        exact ih seen fs hagree
      · rw [if_neg hc, if_neg (fun hc' => hc ⟨hc'.2, hc'.1⟩)]
        simp only []
        congr 1
        exact ih seen fs hagree

/-- C8 amended: the dedup pass drops a later row exactly when its URL is
non-empty and equal to the URL of the first-seen row for its key
(`dedupSpecGo`, written from the amended sentence); rows with an empty or
differing URL are kept, so two retained rows may still share a key and a
URL. -/
theorem claim_C8_amended_dedup (rows : List Row) :
    (deduplicate_same_url rows).1 = dedupSpecGo (fun _ => none) rows :=
  dedupGo_eq_spec rows [] (fun _ => none) (fun _ => rfl)

/-! ## Claim C7: stable IDs are never overwritten -/

theorem assignGo_frame (keys : List String) :
    ∀ ps existing a c ps' a' c',
      assignGo ps existing a c keys = Except.ok (ps', a', c') →
      ∀ k p, dictLookup ps k = some p →
        ∃ q, dictLookup ps' k = some q ∧
          { q with stable_id := p.stable_id } = p ∧
          (hasStableId p = true → q = p) := by
  induction keys with
  | nil =>
    intro ps existing a c ps' a' c' h k p hp
    simp only [assignGo, Except.ok.injEq, Prod.mk.injEq] at h
    obtain ⟨hps, -⟩ := h
    refine ⟨p, ?_, ?_, fun _ => rfl⟩
    · rw [← hps]; exact hp
    · cases p; rfl
  | cons key rest ih =>
    intro ps existing a c ps' a' c' h k p hp
    simp only [assignGo] at h
    cases hl : dictLookup ps key with
    | none =>
      rw [hl] at h
      exact ih ps existing a c ps' a' c' h k p hp
    | some p0 =>
      rw [hl] at h
      simp only [] at h
      by_cases hid : hasStableId p0
      · rw [if_pos hid] at h
        exact ih ps existing a c ps' a' c' h k p hp
      · rw [if_neg hid] at h
        cases hg1 : generate_stable_id p0.manufacturer p0.code [] with
        | error e => rw [hg1] at h; cases hg2 : generate_stable_id p0.manufacturer p0.code existing with
          | error e2 => rw [hg2] at h; exact absurd h (by simp)
          | ok sid => rw [hg2] at h; exact absurd h (by simp)
        | ok original => cases hg2 : generate_stable_id p0.manufacturer p0.code existing with
          | error e2 => rw [hg1, hg2] at h; exact absurd h (by simp)
          | ok sid =>
            rw [hg1, hg2] at h
            simp only [] at h
            by_cases hk : key = k
            · subst hk
              have hp0 : p = p0 := by
                rw [hp] at hl
                exact Option.some.inj hl
              subst hp0
              obtain ⟨q, hq, hframe, -⟩ :=
                ih _ _ _ _ ps' a' c' h key { p with stable_id := some sid }
                  (dictLookup_insert_self ps key _)
              refine ⟨q, hq, ?_, ?_⟩
              · have h2 := congrArg (fun x => { x with stable_id := p.stable_id }) hframe
                exact h2
              · intro habs
                exact absurd habs (by simp [hid])
            · obtain ⟨q, hq, hframe, hsame⟩ :=
                ih _ _ _ _ ps' a' c' h k p
                  (by rw [dictLookup_insert_ne _ _ _ _ hk]; exact hp)
              exact ⟨q, hq, hframe, hsame⟩

/-- C7: a completed `assign_stable_ids` run maps every record of the store
to a record that differs at most in `stable_id`, and leaves any record
that already had a non-empty `stable_id` entirely unchanged. -/
theorem claim_C7_stable_id_no_overwrite (ps ps' : List (String × Record)) (a c : Nat)
    (h : assign_stable_ids ps = Except.ok (ps', a, c)) :
    ∀ k p, dictLookup ps k = some p →
      ∃ q, dictLookup ps' k = some q ∧
        { q with stable_id := p.stable_id } = p ∧
        (hasStableId p = true → q = p) :=
  assignGo_frame (sortStrings (ps.map Prod.fst)) ps (collectStableIds ps) 0 0 ps' a c h

def wRecId : Record := { wRec with stable_id := some "AAAAAA" }

def wRec2 : Record := create_product_record wRow2 "2024-01-01"

theorem claim_C7_stable_id_no_overwrite_witness :
    ∃ q, dictLookup
          [("BB:001", wRecId), ("BB:002", { wRec2 with stable_id := some "0R4dnG" })]
          "BB:001" = some q ∧
        { q with stable_id := wRecId.stable_id } = wRecId ∧
        (hasStableId wRecId = true → q = wRecId) :=
  claim_C7_stable_id_no_overwrite
    [("BB:001", wRecId), ("BB:002", wRec2)]
    [("BB:001", wRecId), ("BB:002", { wRec2 with stable_id := some "0R4dnG" })]
    1 0 (by decide) "BB:001" wRecId (by decide)

/-! ## Claim C9: export with stripped metadata -/

/-- C9: exporting a record whose tags string is `"blue", "unknown"` with
`strip_metadata` produces tags `["blue"]` (quotes stripped, empties and
the "unknown" sentinel dropped) and no status, added_date, last_seen or
discontinued_date; a synonyms string undergoes the same conversion but
keeps "unknown". -/
theorem claim_C9_export_strip (p : Record)
    (htags : p.tags = "\"blue\", \"unknown\"") :
    (exportRecord p true).tags = ["blue"] ∧
    (exportRecord p true).status = none ∧
    (exportRecord p true).added_date = none ∧
    (exportRecord p true).last_seen = none ∧
    (exportRecord p true).discontinued_date = none ∧
    (p.synonyms = "\"blue\", \"unknown\"" →
      (exportRecord p true).synonyms = ["blue", "unknown"]) := by
  refine ⟨?_, rfl, rfl, rfl, rfl, ?_⟩
  · show convertTags p.tags = ["blue"]
    rw [htags]
    decide
  · intro hsyn
    show convertSynonyms p.synonyms = ["blue", "unknown"]
    rw [hsyn]
    decide

def wRecT : Record :=
  { wRec with tags := "\"blue\", \"unknown\"", synonyms := "\"blue\", \"unknown\"" }

theorem claim_C9_export_strip_witness :
    (exportRecord wRecT true).tags = ["blue"] ∧
    (exportRecord wRecT true).status = none ∧
    (exportRecord wRecT true).added_date = none ∧
    (exportRecord wRecT true).last_seen = none ∧
    (exportRecord wRecT true).discontinued_date = none ∧
    (wRecT.synonyms = "\"blue\", \"unknown\"" →
      (exportRecord wRecT true).synonyms = ["blue", "unknown"]) :=
  claim_C9_export_strip wRecT rfl

/-! ## Claim C5: the candidate stable ID -/

/-- C5 counterexample: the fixed alphabet of `generate_stable_id` has 57
characters, not 58, because besides `I`, `O`, `l` the lowercase `i` and
`o` are also absent; the digit emission therefore divides by 57. -/
theorem claim_C5_counterexample :
    base62_chars.length = 57 ∧ base62_chars.length ≠ 58 ∧
      'i' ∉ base62_chars.data ∧ 'o' ∉ base62_chars.data := by decide

theorem buildId_digits (count : Nat) :
    ∀ n, buildId n count =
      (List.range count).map
        (fun i => base62List.getD (n / 57 ^ (count - 1 - i) % 57) '0') := by
  induction count with
  | zero => intro n; rfl
  | succ c ih =>
    intro n
    have hlen : base62List.length = 57 := by decide
    simp only [buildId, hlen, ih (n / 57)]
    rw [List.range_succ, List.map_append, List.map_cons, List.map_nil]
    congr 1
    · apply List.map_congr_left
      intro i hi
      have hi' : i < c := List.mem_range.mp hi
      rw [Nat.div_div_eq_div_mul]
      have hpow : 57 * 57 ^ (c - 1 - i) = 57 ^ (c + 1 - 1 - i) := by
        rw [← pow_succ']
        congr 1
        omega
      rw [hpow]
    · have : c + 1 - 1 - c = 0 := by omega
      rw [this, pow_zero, Nat.div_one]

/-- C5 amended: the candidate ID hashes `"manufacturer:code"` with
SHA-256, reads the first 4 digest bytes big-endian, and emits exactly 6
digits, most significant first, over the fixed 57-character alphabet of
alphanumerics with `I`, `O`, `i`, `l`, `o` excluded — equality of the
code's digit loop with the spec-side closed form `specCandidateId`. -/
theorem claim_C5_amended_candidate (manufacturer code : String) :
    candidateId manufacturer code = specCandidateId manufacturer code := by
  have hs : specAlphabet = base62List := by decide
  simp only [candidateId, specCandidateId, hs, buildId_digits 6]

/-! ## Claim C6: collision resolution -/

/-- C6 counterexample: with all 57 one-last-character variants of the
hash candidate of `("BB", "001")` already taken, `generate_stable_id`
reaches its internal failure branch and raises instead of returning an
unused ID — the failure branch is reachable. -/
theorem claim_C6_counterexample :
    generate_stable_id "BB" "001"
        (base62List.map (fun c => String.mk ['4', 'U', 'B', 'G', '4', c])) =
      Except.error "Unable to resolve collision" := by decide

theorem collisionLoopGo_ok_props (fuel : Nat) :
    ∀ existing sid counter out, sid ≠ [] →
      collisionLoopGo existing sid counter fuel = Except.ok out →
      String.mk out ∉ existing ∧ out.length = sid.length ∧
        out.dropLast = sid.dropLast := by
  induction fuel with
  | zero =>
    intro existing sid counter out hne h
    simp only [collisionLoopGo] at h
    by_cases hm : String.mk sid ∈ existing
    · rw [if_pos hm] at h
      exact absurd h (by simp)
    · rw [if_neg hm] at h
      injection h with h
      subst h
      exact ⟨hm, rfl, rfl⟩
  | succ f ih =>
    intro existing sid counter out hne h
    simp only [collisionLoopGo] at h
    by_cases hm : String.mk sid ∈ existing
    · rw [if_pos hm] at h
      split at h
      · exact absurd h (by simp)
      · obtain ⟨h1, h2, h3⟩ := ih existing _ _ out (by simp) h
        have hd : (sid.dropLast ++
            [base62List.getD
              ((base62List.indexOf (sid.getLastD '0') + (counter + 1)) %
                base62List.length) '0']).dropLast = sid.dropLast :=
          List.dropLast_concat ..
        have hl : (sid.dropLast ++
            [base62List.getD
              ((base62List.indexOf (sid.getLastD '0') + (counter + 1)) %
                base62List.length) '0']).length = sid.length := by
          rw [List.length_append, List.length_dropLast]
          have : 1 ≤ sid.length := List.length_pos.mpr hne
          simp
          omega
        refine ⟨h1, ?_, ?_⟩
        · rw [h2, hl]
        · rw [h3, hd]
    · rw [if_neg hm] at h
      injection h with h
      subst h
      exact ⟨hm, rfl, rfl⟩

theorem candidateId_length (manufacturer code : String) :
    (candidateId manufacturer code).length = 6 := by
  simp only [candidateId, buildId_digits 6, List.length_map, List.length_range]

/-- C6 amended: whenever `generate_stable_id` returns an ID it is a
6-character ID not in the existing set that agrees with the hash
candidate everywhere except possibly the last character; but the
function's failure branch is reachable (see the counterexample), so
success is not guaranteed for every existing set. -/
theorem claim_C6_amended_collision (manufacturer code : String)
    (existing_ids : List String) (s : String)
    (h : generate_stable_id manufacturer code existing_ids = Except.ok s) :
    s ∉ existing_ids ∧ s.length = 6 ∧
      s.data.dropLast = (candidateId manufacturer code).dropLast := by
  simp only [generate_stable_id, collisionLoop] at h
  cases hres : collisionLoopGo existing_ids (candidateId manufacturer code) 0
      (base62List.length - 0) with
  | error e => rw [hres] at h; exact absurd h (by simp [Except.map])
  | ok out =>
    rw [hres] at h
    simp only [Except.map, Except.ok.injEq] at h
    subst h
    have hne : candidateId manufacturer code ≠ [] := by
      intro habs
      have := candidateId_length manufacturer code
      rw [habs] at this
      simp at this
    obtain ⟨h1, h2, h3⟩ :=
      collisionLoopGo_ok_props _ existing_ids _ 0 out hne hres
    refine ⟨h1, ?_, h3⟩
    show out.length = 6
    rw [h2, candidateId_length]

theorem claim_C6_amended_collision_witness :
    ("4UBG43" : String) ∉ ([] : List String) ∧
      ("4UBG43" : String).length = 6 ∧
      ("4UBG43" : String).data.dropLast = (candidateId "BB" "001").dropLast :=
  claim_C6_amended_collision "BB" "001" [] "4UBG43" (by decide)

end Molten
